import Mathlib

/-!
Shallow embedding of the groth16-proofs witness-decoding and
signal-partitioning pipeline (src/utils.rs, src/circuit.rs, src/wasm.rs,
src/bin/generate-proof-from-witness.rs), together with theorems settling
the frozen claims about it.

Field elements of BN254's scalar field Fr are embedded as natural numbers
strictly below the field prime; `from_le_bytes_mod_order` is embedded as
little-endian byte interpretation followed by reduction modulo the prime.
-/

namespace Groth16Proofs

/-- The BN254 scalar-field (Fr) prime modulus used by `ark_bn254::Fr`. -/
def fieldPrime : Nat :=
  21888242871839275222246405745257275088548364400416034343698204186575808495617

/-- Value of a single hex digit character, as accepted by Rust's
`hex::decode` (upper and lower case both allowed); `none` for any
character outside `[0-9a-fA-F]`. -/
def hexCharToVal? (c : Char) : Option Nat :=
  if '0' ≤ c ∧ c ≤ '9' then some (c.toNat - 48)
  else if 'a' ≤ c ∧ c ≤ 'f' then some (c.toNat - 87)
  else if 'A' ≤ c ∧ c ≤ 'F' then some (c.toNat - 55)
  else none

/-- Rust `hex::decode`: pairs of hex digits become bytes, first digit of a
pair is the high nibble; fails on a non-hex character or an odd digit
count. -/
def hexBytes? : List Char → Option (List Nat)
  | [] => some []
  | [_] => none
  | c1 :: c2 :: rest =>
    match hexCharToVal? c1, hexCharToVal? c2, hexBytes? rest with
    | some h, some l, some bs => some ((16 * h + l) :: bs)
    | _, _, _ => none

/-- Little-endian interpretation of a byte list as an unsigned integer
(first byte least significant), as in `from_le_bytes_mod_order` before
the reduction. -/
def bytesToNatLE : List Nat → Nat
  | [] => 0
  | b :: bs => b + 256 * bytesToNatLE bs

/-- The `strip_prefix("0x")` step of `hex_to_field` in src/utils.rs. -/
def strip0x (cs : List Char) : List Char :=
  if cs.take 2 = ['0', 'x'] then cs.drop 2 else cs

/-- The odd-length padding step of `hex_to_field` in src/utils.rs: a
single `0` nibble is logically prepended when the digit count is odd. -/
def padEven (cs : List Char) : List Char :=
  if cs.length % 2 = 1 then '0' :: cs else cs

/-- `hex_to_field` from src/utils.rs lines 26-46: strip an optional `0x`
prefix, left-pad odd-length input with one `0` nibble, decode hex digits
to bytes, interpret the bytes as a little-endian unsigned integer and
reduce modulo the field prime (`Bn254Fr::from_le_bytes_mod_order`). -/
def hex_to_field (s : String) : Option Nat :=
  (hexBytes? (padEven (strip0x s.data))).map (fun bs => bytesToNatLE bs % fieldPrime)

/-- The leading-plus stripping done by `num_bigint::BigUint::from_str_radix`
(reached through `BigUint::parse_bytes` in `decimal_to_field`): a single
leading `+` is dropped unless it is followed by another `+`. -/
def stripPlus : List Char → List Char
  | [] => []
  | c :: rest =>
    if c = '+' then (if rest.headD 'x' = '+' then c :: rest else rest) else c :: rest

/-- The radix-10 digit loop of `num_bigint`'s `from_str_radix`: decimal
digits are collected most-significant first, non-leading underscores are
skipped, and any other character is rejected. -/
def parseDigits10 : List Char → Option (List Nat)
  | [] => some []
  | c :: rest =>
    if c = '_' then parseDigits10 rest
    else if '0' ≤ c ∧ c ≤ '9' then (parseDigits10 rest).map (fun ds => (c.toNat - 48) :: ds)
    else none

/-- Base-10 value of a digit list, most-significant digit first. -/
def digitsToNat (ds : List Nat) : Nat :=
  ds.foldl (fun acc d => 10 * acc + d) 0

/-- `num_bigint::BigUint::parse_bytes(s, 10)`: strip a single leading
`+` (unless doubled), reject the empty remainder and a leading
underscore, then run the radix-10 digit loop. -/
def parseBigUint10? (s : List Char) : Option Nat :=
  let s1 := stripPlus s
  if s1 = [] then none
  else if s1.headD ' ' = '_' then none
  else (parseDigits10 s1).map digitsToNat

/-- `decimal_to_field` from src/utils.rs lines 11-21: parse the string as
an arbitrary-precision base-10 unsigned integer via
`BigUint::parse_bytes(_, 10)`, then convert through little-endian bytes
into the field (`from_le_bytes_mod_order`), which amounts to reduction
modulo the field prime. -/
def decimal_to_field (s : String) : Option Nat :=
  (parseBigUint10? s.data).map (fun n => n % fieldPrime)

/-- Lowercase hex digit for a nibble value, as emitted by `hex::encode`. -/
def toHexDigit (n : Nat) : Char :=
  if n < 10 then Char.ofNat (48 + n) else Char.ofNat (87 + n)

/-- Rust `hex::encode`: each byte becomes two lowercase hex digits, high
nibble first. -/
def bytesToHexChars : List Nat → List Char
  | [] => []
  | b :: bs => toHexDigit (b / 16) :: toHexDigit (b % 16) :: bytesToHexChars bs

/-- Fixed-width little-endian byte serialization of a natural number
(`k` bytes, least significant first), as produced by
`BigInt::to_bytes_le` on the canonical representation. -/
def natToBytesLE : Nat → Nat → List Nat
  | 0, _ => []
  | k + 1, x => (x % 256) :: natToBytesLE k (x / 256)

/-- The public-signal encoding step of `generate_proof_wasm` in
src/wasm.rs lines 88-91: `f.into_bigint().to_bytes_le()` yields the
canonical 32-byte little-endian representation, which is hex-encoded in
lowercase and prefixed with `0x`. -/
def fieldToHex (x : Nat) : String :=
  String.mk ('0' :: 'x' :: bytesToHexChars (natToBytesLE 32 x))

/-- The public-signal slice of a witness for a resolved count: elements
at indices `1 ..= count`. This is `iter().skip(1).take(num_public_signals)`
in src/bin/generate-proof-from-witness.rs lines 87-93 and the slice
`witness[1..=num_public_signals]` in src/wasm.rs line 86. -/
def publicSignalsOf {α : Type} (w : List α) (count : Nat) : List α :=
  (w.drop 1).take count

/-- Modelled from the spec: the repository never materialises a private
signal list in the pipeline (only the spec's SignalPartitioner names it);
per the spec, `privateSignals` are the remaining elements
`Witness[count+1..]` after the public slice. -/
def privateSignalsOf {α : Type} (w : List α) (count : Nat) : List α :=
  w.drop (count + 1)

/-- The public-signal extraction of the CLI binary
(src/bin/generate-proof-from-witness.rs lines 85-101): the caller's
original witness strings at indices `1 ..= count` are cloned verbatim
into the output envelope, and a warning is emitted on stderr exactly when
the extracted slice is shorter than the requested count. -/
def cliSignalsAndWarning (ws : List String) (count : Nat) : List String × Bool :=
  let sigs := (ws.drop 1).take count
  (sigs, sigs.length != count)

/-- The count-resolution step of the CLI binary
(src/bin/generate-proof-from-witness.rs line 81):
`cli_num_public.or(input.num_public_signals).unwrap_or(5)`. -/
def resolveCount (cliArg : Option Nat) (jsonField : Option Nat) : Nat :=
  match cliArg with
  | some n => n
  | none =>
    match jsonField with
    | some n => n
    | none => 5

/-- The `circuit_type` discriminant mapping of `generate_proof_wasm`
(src/wasm.rs lines 75-84). -/
def circuitTypeNumPublic (circuitType : String) : Except String Nat :=
  if circuitType = "unshield" then Except.ok 5
  else if circuitType = "transfer" then Except.ok 5
  else if circuitType = "disclosure" then Except.ok 4
  else Except.error ("Unknown circuit type: " ++ circuitType)

/-- The public-signal extraction of `generate_proof_wasm`
(src/wasm.rs lines 86-92): the slice `witness[1..=num_public_signals]`
is re-encoded element by element via `fieldToHex`. Rust slice indexing
panics when the end of the range exceeds the slice length; the panic is
modelled as `none`. -/
def wasmPublicSignals (witness : List Nat) (numPublicSignals : Nat) : Option (List String) :=
  if numPublicSignals + 1 ≤ witness.length then
    some (((witness.drop 1).take numPublicSignals).map fieldToHex)
  else none

/-- The size-based public-input estimate of
`WitnessCircuit::generate_constraints` (src/circuit.rs lines 22-27):
`(witness.len() / 100).clamp(1, 10)` when the witness has more than one
element, otherwise `0`. -/
def circuitNumPublic (w : List Nat) : Nat :=
  if 1 < w.length then min (max (w.length / 100) 1) 10 else 0

/-- The wire declarations emitted by
`WitnessCircuit::generate_constraints` (src/circuit.rs lines 29-38), in
emission order: for `i` in `0..num_public`, a public input variable
carrying `witness[i+1]` (guarded by `i + 1 < witness.len()`), then one
private witness variable for every element of
`witness.iter().skip(num_public + 1)`. `true` marks a public input
variable, `false` a private witness variable. -/
def circuitDecls (w : List Nat) : List (Bool × Nat) :=
  ((List.range (circuitNumPublic w)).filterMap fun i =>
    if h : i + 1 < w.length then some (true, w[i + 1]) else none)
  ++ ((w.drop (circuitNumPublic w + 1)).map fun v => (false, v))

theorem hexCharToVal_toHexDigit (n : Nat) (h : n < 16) :
    hexCharToVal? (toHexDigit n) = some n := by
  interval_cases n <;> decide

theorem natToBytesLE_lt (k x : Nat) : ∀ b ∈ natToBytesLE k x, b < 256 := by
  induction k generalizing x with
  | zero => intro b hb; simp [natToBytesLE] at hb
  | succ k ih =>
    intro b hb
    simp only [natToBytesLE, List.mem_cons] at hb
    rcases hb with h | h
    · subst h; exact Nat.mod_lt _ (by omega)
    · exact ih (x / 256) b h

theorem length_natToBytesLE (k x : Nat) : (natToBytesLE k x).length = k := by
  induction k generalizing x with
  | zero => rfl
  | succ k ih => simp [natToBytesLE, ih]

theorem bytesToNatLE_natToBytesLE (k x : Nat) (h : x < 256 ^ k) :
    bytesToNatLE (natToBytesLE k x) = x := by
  induction k generalizing x with
  | zero =>
    simp only [pow_zero] at h
    simp only [natToBytesLE, bytesToNatLE]
    omega
  | succ k ih =>
    simp only [natToBytesLE, bytesToNatLE]
    rw [ih (x / 256) (by rw [Nat.div_lt_iff_lt_mul (by omega)]; rw [pow_succ] at h; omega)]
    omega

theorem length_bytesToHexChars (bs : List Nat) :
    (bytesToHexChars bs).length = 2 * bs.length := by
  induction bs with
  | nil => rfl
  | cons b bs ih =>
    simp only [bytesToHexChars, List.length_cons, ih]
    omega

theorem hexBytes_bytesToHexChars (bs : List Nat) (h : ∀ b ∈ bs, b < 256) :
    hexBytes? (bytesToHexChars bs) = some bs := by
  induction bs with
  | nil => rfl
  | cons b bs ih =>
    have hb : b < 256 := h b (List.mem_cons_self _ _)
    have h1 : hexCharToVal? (toHexDigit (b / 16)) = some (b / 16) :=
      hexCharToVal_toHexDigit _ (by omega)
    have h2 : hexCharToVal? (toHexDigit (b % 16)) = some (b % 16) :=
      hexCharToVal_toHexDigit _ (Nat.mod_lt _ (by omega))
    have h3 := ih (fun x hx => h x (List.mem_cons_of_mem _ hx))
    simp only [bytesToHexChars, hexBytes?, h1, h2, h3]
    have hbv : 16 * (b / 16) + b % 16 = b := by omega
    rw [hbv]

theorem hex_to_field_fieldToHex (x : Nat) (hx : x < fieldPrime) :
    hex_to_field (fieldToHex x) = some x := by
  have hxlt : x < 256 ^ 32 := lt_of_lt_of_le hx (by norm_num [fieldPrime])
  have hstrip : strip0x ('0' :: 'x' :: bytesToHexChars (natToBytesLE 32 x))
      = bytesToHexChars (natToBytesLE 32 x) := by
    simp [strip0x]
  have hlen : (bytesToHexChars (natToBytesLE 32 x)).length = 64 := by
    rw [length_bytesToHexChars, length_natToBytesLE]
  have hpad : padEven (bytesToHexChars (natToBytesLE 32 x))
      = bytesToHexChars (natToBytesLE 32 x) := by
    unfold padEven
    rw [hlen]
    norm_num
  unfold hex_to_field fieldToHex
  rw [show (String.mk ('0' :: 'x' :: bytesToHexChars (natToBytesLE 32 x))).data
      = '0' :: 'x' :: bytesToHexChars (natToBytesLE 32 x) from rfl]
  rw [hstrip, hpad, hexBytes_bytesToHexChars _ (natToBytesLE_lt 32 x)]
  simp only [Option.map_some']
  rw [bytesToNatLE_natToBytesLE 32 x hxlt, Nat.mod_eq_of_lt hx]

theorem hexBytes_none_of_bad : ∀ cs : List Char,
    (∃ c ∈ cs, hexCharToVal? c = none) → hexBytes? cs = none
  | [], h => by simp at h
  | [_], _ => rfl
  | c1 :: c2 :: rest, h => by
    cases h1 : hexCharToVal? c1 with
    | none => simp [hexBytes?, h1]
    | some a =>
      cases h2 : hexCharToVal? c2 with
      | none => simp [hexBytes?, h1, h2]
      | some b =>
        have hr : hexBytes? rest = none := by
          obtain ⟨c, hc, hcv⟩ := h
          rcases List.mem_cons.mp hc with rfl | hc2
          · rw [h1] at hcv; exact absurd hcv (by simp)
          · rcases List.mem_cons.mp hc2 with rfl | hc3
            · rw [h2] at hcv; exact absurd hcv (by simp)
            · exact hexBytes_none_of_bad rest ⟨c, hc3, hcv⟩
        simp [hexBytes?, h1, h2, hr]

theorem hexBytes_isSome : ∀ cs : List Char, cs.length % 2 = 0 →
    (∀ c ∈ cs, (hexCharToVal? c).isSome) → (hexBytes? cs).isSome
  | [], _, _ => by simp [hexBytes?]
  | [_], h, _ => by simp at h
  | c1 :: c2 :: rest, h, hall => by
    obtain ⟨a, h1⟩ := Option.isSome_iff_exists.mp (hall c1 (by simp))
    obtain ⟨b, h2⟩ := Option.isSome_iff_exists.mp (hall c2 (by simp))
    have hrest : rest.length % 2 = 0 := by
      simp only [List.length_cons] at h
      omega
    obtain ⟨bs, h3⟩ := Option.isSome_iff_exists.mp
      (hexBytes_isSome rest hrest (fun c hc => hall c (by simp [hc])))
    simp [hexBytes?, h1, h2, h3]

theorem parseDigits10_none : ∀ cs : List Char,
    (∃ c ∈ cs, ¬(c = '_' ∨ ('0' ≤ c ∧ c ≤ '9'))) → parseDigits10 cs = none
  | [], h => by simp at h
  | c :: rest, h => by
    obtain ⟨c0, hc0, hbad⟩ := h
    unfold parseDigits10
    rcases List.mem_cons.mp hc0 with rfl | hmem
    · rw [if_neg (fun hu => hbad (Or.inl hu)), if_neg (fun hd => hbad (Or.inr hd))]
    · have hr := parseDigits10_none rest ⟨c0, hmem, hbad⟩
      split
      · exact hr
      · split
        · rw [hr]; rfl
        · rfl

theorem parseDigits10_isSome : ∀ cs : List Char, (∀ c ∈ cs, '0' ≤ c ∧ c ≤ '9') →
    (parseDigits10 cs).isSome
  | [], _ => by simp [parseDigits10]
  | c :: rest, hall => by
    have hd := hall c (by simp)
    have hr := parseDigits10_isSome rest (fun x hx => hall x (by simp [hx]))
    unfold parseDigits10
    have hne : ¬ c = '_' := by
      intro hcu
      rw [hcu] at hd
      exact absurd hd (by decide)
    rw [if_neg hne, if_pos hd]
    obtain ⟨ds, hds⟩ := Option.isSome_iff_exists.mp hr
    rw [hds]
    simp

/-- Counterexample for C5: the empty string is not a `DecodeError` for
`hex_to_field` (it decodes to zero), and `decimal_to_field` accepts a
leading `+` and embedded underscore separators, both non-digit
characters. -/
theorem claim_c5_counterexample :
    hex_to_field "" = some 0 ∧ decimal_to_field "+1" = some 1 ∧
    decimal_to_field "1_0" = some 10 :=
  ⟨by decide, by decide, by decide⟩

/-- C5 (amended): `hex_to_field` fails for every input containing a
character outside `[0-9a-fA-F]` after optional `0x`-prefix removal
(e.g. "0xGGGG"), but the empty digit string succeeds and decodes to
zero; `decimal_to_field` fails for every input that, after stripping a
single leading `+`, contains a character that is neither a decimal digit
nor an underscore (e.g. "not_a_number"), and fails on the empty
string. -/
theorem claim_c5_decode_errors :
    (∀ s : String, (∃ c ∈ strip0x s.data, hexCharToVal? c = none) → hex_to_field s = none) ∧
    hex_to_field "0xGGGG" = none ∧
    (∀ s : String, (∃ c ∈ stripPlus s.data, ¬(c = '_' ∨ ('0' ≤ c ∧ c ≤ '9'))) →
      decimal_to_field s = none) ∧
    decimal_to_field "not_a_number" = none ∧
    decimal_to_field "" = none ∧
    hex_to_field "" = some 0 := by
  refine ⟨?_, by decide, ?_, by decide, by decide, by decide⟩
  · intro s hbad
    obtain ⟨c, hc, hcv⟩ := hbad
    have hmem : c ∈ padEven (strip0x s.data) := by
      unfold padEven
      split
      · exact List.mem_cons_of_mem _ hc
      · exact hc
    unfold hex_to_field
    rw [hexBytes_none_of_bad _ ⟨c, hmem, hcv⟩]
    rfl
  · intro s hbad
    obtain ⟨c, hc, hcbad⟩ := hbad
    by_cases h1 : stripPlus s.data = []
    · rw [h1] at hc
      simp at hc
    · by_cases h2 : (stripPlus s.data).headD ' ' = '_'
      · simp only [decimal_to_field, parseBigUint10?]
        rw [if_neg h1, if_pos h2]
        rfl
      · have hn := parseDigits10_none (stripPlus s.data) ⟨c, hc, hcbad⟩
        simp only [decimal_to_field, parseBigUint10?]
        rw [if_neg h1, if_neg h2, hn]
        rfl

/-- Witness for C5 (amended): the universally quantified rejection parts
applied at "0xZZ" and "12a34". -/
theorem claim_c5_witness :
    hex_to_field "0xZZ" = none ∧ decimal_to_field "12a34" = none :=
  ⟨claim_c5_decode_errors.1 "0xZZ" ⟨'Z', by decide, by decide⟩,
   claim_c5_decode_errors.2.2.1 "12a34" ⟨'a', by decide, by decide⟩⟩

/-- C7: both decoders reduce modulo the field prime instead of rejecting
out-of-range values — every successful decode is strictly below the
prime, every well-formed numeral (including those at or above the prime)
decodes successfully, and in particular the 64-hex-character all-ones
string decodes to `(2^256 - 1) mod fieldPrime`. -/
theorem claim_c7_modular_reduction :
    (∀ (s : String) (v : Nat), hex_to_field s = some v → v < fieldPrime) ∧
    (∀ (s : String) (v : Nat), decimal_to_field s = some v → v < fieldPrime) ∧
    (∀ cs : List Char, (∀ c ∈ cs, (hexCharToVal? c).isSome) →
      (hex_to_field (String.mk cs)).isSome) ∧
    (∀ cs : List Char, cs ≠ [] → (∀ c ∈ cs, '0' ≤ c ∧ c ≤ '9') →
      (decimal_to_field (String.mk cs)).isSome) ∧
    hex_to_field (String.mk ('0' :: 'x' :: List.replicate 64 'f'))
      = some ((2 ^ 256 - 1) % fieldPrime) := by
  refine ⟨?_, ?_, ?_, ?_, by decide⟩
  · intro s v h
    obtain ⟨bs, _, hv⟩ := Option.map_eq_some'.mp h
    rw [← hv]
    exact Nat.mod_lt _ (by norm_num [fieldPrime])
  · intro s v h
    obtain ⟨n, _, hv⟩ := Option.map_eq_some'.mp h
    rw [← hv]
    exact Nat.mod_lt _ (by norm_num [fieldPrime])
  · intro cs hall
    have hstrip : strip0x cs = cs := by
      unfold strip0x
      rw [if_neg]
      intro htake
      have hx : 'x' ∈ cs := by
        have hx2 : 'x' ∈ cs.take 2 := by rw [htake]; simp
        exact List.mem_of_mem_take hx2
      exact absurd (hall 'x' hx) (by decide)
    have hpadgood : ∀ c ∈ padEven cs, (hexCharToVal? c).isSome := by
      intro c hcmem
      unfold padEven at hcmem
      by_cases hodd : cs.length % 2 = 1
      · rw [if_pos hodd] at hcmem
        rcases List.mem_cons.mp hcmem with rfl | hm
        · decide
        · exact hall c hm
      · rw [if_neg hodd] at hcmem
        exact hall c hcmem
    have hpl : (padEven cs).length % 2 = 0 := by
      unfold padEven
      by_cases hodd : cs.length % 2 = 1
      · rw [if_pos hodd]
        simp only [List.length_cons]
        omega
      · rw [if_neg hodd]
        omega
    unfold hex_to_field
    rw [show (String.mk cs).data = cs from rfl, hstrip]
    obtain ⟨bs, hbs⟩ := Option.isSome_iff_exists.mp (hexBytes_isSome (padEven cs) hpl hpadgood)
    rw [hbs]
    simp
  · intro cs hne hall
    have hstrip : stripPlus cs = cs := by
      cases cs with
      | nil => rfl
      | cons c rest =>
        simp only [stripPlus]
        rw [if_neg]
        intro hplus
        have hd := hall c (by simp)
        rw [hplus] at hd
        exact absurd hd (by decide)
    have hhead : ¬ cs.headD ' ' = '_' := by
      cases cs with
      | nil => exact absurd rfl hne
      | cons c rest =>
        have hd := hall c (by simp)
        simp only [List.headD_cons]
        intro hcu
        rw [hcu] at hd
        exact absurd hd (by decide)
    unfold decimal_to_field parseBigUint10?
    rw [show (String.mk cs).data = cs from rfl]
    simp only [hstrip]
    rw [if_neg hne, if_neg hhead]
    obtain ⟨ds, hds⟩ := Option.isSome_iff_exists.mp (parseDigits10_isSome cs hall)
    rw [hds]
    simp

/-- Witness for C7: concrete applications — "0xff" decodes below the
prime, "99" decodes below the prime, the all-hex list ['f','f'] and the
all-digit list ['9','9'] both decode successfully. -/
theorem claim_c7_witness :
    255 < fieldPrime ∧ 99 < fieldPrime ∧
    (hex_to_field (String.mk ['f', 'f'])).isSome ∧
    (decimal_to_field (String.mk ['9', '9'])).isSome :=
  ⟨claim_c7_modular_reduction.1 "0xff" 255 (by decide),
   claim_c7_modular_reduction.2.1 "99" 99 (by decide),
   claim_c7_modular_reduction.2.2.1 ['f', 'f'] (by decide),
   claim_c7_modular_reduction.2.2.2.1 ['9', '9'] (by decide) (by decide)⟩

/-- C6: for every canonical field element `x < fieldPrime`, decoding the
fixed-width 32-byte little-endian hex encoding of `x` (with `0x` prefix)
yields `x` back: `decodeHex(encodeHex(x)) = x`. -/
theorem claim_c6_hex_roundtrip (x : Nat) (hx : x < fieldPrime) :
    hex_to_field (fieldToHex x) = some x :=
  hex_to_field_fieldToHex x hx

/-- Witness for C6: round-trip at the canonical element 12345. -/
theorem claim_c6_witness :
    12345 < fieldPrime ∧ hex_to_field (fieldToHex 12345) = some 12345 :=
  ⟨by norm_num [fieldPrime], claim_c6_hex_roundtrip 12345 (by norm_num [fieldPrime])⟩

/-- C4: the effective public-signal count is resolved with strict
priority — an explicit CLI-argument count overrides a count embedded in
the request JSON, which overrides the fixed fallback default of 5; in
particular CLI-arg 3 with JSON-field 7 resolves to 3. -/
theorem claim_c4_count_resolution :
    (∀ c j, resolveCount (some c) j = c) ∧
    (∀ j, resolveCount none (some j) = j) ∧
    resolveCount none none = 5 ∧
    resolveCount (some 3) (some 7) = 3 :=
  ⟨fun _ _ => rfl, fun _ => rfl, rfl, rfl⟩

/-- C9: the WASM entry point maps circuit type "unshield" to 5 public
signals, "transfer" to 5, "disclosure" to 4, and fails on every other
discriminant with an error naming the unrecognized value. -/
theorem claim_c9_circuit_type_mapping :
    circuitTypeNumPublic "unshield" = Except.ok 5 ∧
    circuitTypeNumPublic "transfer" = Except.ok 5 ∧
    circuitTypeNumPublic "disclosure" = Except.ok 4 ∧
    ∀ s : String, s ≠ "unshield" → s ≠ "transfer" → s ≠ "disclosure" →
      circuitTypeNumPublic s = Except.error ("Unknown circuit type: " ++ s) := by
  refine ⟨rfl, rfl, rfl, ?_⟩
  intro s h1 h2 h3
  simp [circuitTypeNumPublic, h1, h2, h3]

/-- Witness for C9: the discriminant "withdraw" is rejected with the
error message naming it. -/
theorem claim_c9_witness :
    circuitTypeNumPublic "withdraw" = Except.error ("Unknown circuit type: " ++ "withdraw") :=
  claim_c9_circuit_type_mapping.2.2.2 "withdraw" (by decide) (by decide) (by decide)

/-- C10: when the decoded witness has fewer than
`num_public_signals + 1` elements, the slice `witness[1..=n]` taken by
`generate_proof_wasm` is out of bounds and the function panics (modelled
as `none`) instead of returning an error through its `Result`. -/
theorem claim_c10_wasm_slice_panics (w : List Nat) (n : Nat) (h : w.length < n + 1) :
    wasmPublicSignals w n = none := by
  unfold wasmPublicSignals
  rw [if_neg (by omega)]

/-- Witness for C10: a two-element witness with count 5 hits the panic
branch. -/
theorem claim_c10_witness :
    ([1, 10] : List Nat).length < 5 + 1 ∧ wasmPublicSignals [1, 10] 5 = none :=
  ⟨by decide, claim_c10_wasm_slice_panics [1, 10] 5 (by decide)⟩

/-- C1: when the witness has at least `count + 1` elements, the derived
split takes exactly `Witness[1..=count]` as public signals in witness
order and `Witness[count+1..]` as private signals, so
`1 + len(publicSignals) + len(privateSignals) = len(Witness)`. -/
theorem claim_c1_signal_split (w : List Nat) (count : Nat) (h : count + 1 ≤ w.length) :
    (publicSignalsOf w count).length = count ∧
    1 + (publicSignalsOf w count).length + (privateSignalsOf w count).length = w.length ∧
    (∀ i, i < count → (publicSignalsOf w count)[i]? = w[i + 1]?) ∧
    (∀ j, (privateSignalsOf w count)[j]? = w[count + 1 + j]?) := by
  have hpub : (publicSignalsOf w count).length = count := by
    simp only [publicSignalsOf, List.length_take, List.length_drop]
    omega
  refine ⟨hpub, ?_, ?_, ?_⟩
  · simp only [hpub, privateSignalsOf, List.length_drop]
    omega
  · intro i hi
    simp only [publicSignalsOf]
    rw [List.getElem?_take_of_lt hi, List.getElem?_drop, Nat.add_comm 1 i]
  · intro j
    simp only [privateSignalsOf]
    rw [List.getElem?_drop]

/-- Witness for C1: the spec's concrete example, witness
`[1,10,20,30,40,50,60]` with count 5. -/
theorem claim_c1_witness :
    5 + 1 ≤ ([1, 10, 20, 30, 40, 50, 60] : List Nat).length ∧
    publicSignalsOf ([1, 10, 20, 30, 40, 50, 60] : List Nat) 5 = [10, 20, 30, 40, 50] ∧
    privateSignalsOf ([1, 10, 20, 30, 40, 50, 60] : List Nat) 5 = [60] ∧
    1 + (publicSignalsOf ([1, 10, 20, 30, 40, 50, 60] : List Nat) 5).length
      + (privateSignalsOf ([1, 10, 20, 30, 40, 50, 60] : List Nat) 5).length
      = ([1, 10, 20, 30, 40, 50, 60] : List Nat).length :=
  ⟨by decide, by decide, by decide,
    (claim_c1_signal_split [1, 10, 20, 30, 40, 50, 60] 5 (by decide)).2.1⟩

/-- Counterexample for C3: with an empty witness and resolved count 0 we
have `witness.len() < count + 1`, yet the CLI emits no warning at all
(the extracted slice is empty and matches the zero count), so the
mismatch is not reported in that case. -/
theorem claim_c3_counterexample :
    ([] : List String).length < 0 + 1 ∧ (cliSignalsAndWarning [] 0).2 = false :=
  ⟨by decide, by decide⟩

/-- C3 (amended): for every witness and resolved count with
`witness.len() < count + 1`, except an empty witness with count 0, the
insufficient-witness mismatch is reported to the caller as a
warning-level condition and the partial public-signal slice that exists
(witness elements from index 1 onward) is still returned. -/
theorem claim_c3_insufficient_warning (ws : List String) (count : Nat)
    (hshort : ws.length < count + 1) (hne : ¬(ws = [] ∧ count = 0)) :
    (cliSignalsAndWarning ws count).2 = true ∧
    (cliSignalsAndWarning ws count).1 = ws.drop 1 := by
  have h0 : ¬(ws.length = 0 ∧ count = 0) := by
    intro ⟨a, b⟩
    exact hne ⟨List.length_eq_zero.mp a, b⟩
  constructor
  · simp only [cliSignalsAndWarning, bne_iff_ne, ne_eq, List.length_take, List.length_drop]
    omega
  · simp only [cliSignalsAndWarning]
    apply List.take_of_length_le
    simp only [List.length_drop]
    omega

/-- Witness for C3 (amended): a two-element witness with count 5 warns
and still returns the one-element partial slice. -/
theorem claim_c3_witness :
    (["1", "10"] : List String).length < 5 + 1 ∧
    (cliSignalsAndWarning ["1", "10"] 5).2 = true ∧
    (cliSignalsAndWarning ["1", "10"] 5).1 = ["10"] :=
  ⟨by decide, (claim_c3_insufficient_warning ["1", "10"] 5 (by decide) (by decide)).1,
    (claim_c3_insufficient_warning ["1", "10"] 5 (by decide) (by decide)).2⟩

/-- Counterexample for C2: the CLI binary reuses the caller's original
witness string for each public signal instead of re-deriving it through
the codec's fixed-width encoding — for witness strings
`["0x01", "0x0a"]` and count 1 the response carries `"0x0a"` verbatim,
which differs from the canonical fixed-width encoding of the decoded
element 10. -/
theorem claim_c2_counterexample :
    (cliSignalsAndWarning ["0x01", "0x0a"] 1).1 = ["0x0a"] ∧
    hex_to_field "0x0a" = some 10 ∧
    fieldToHex 10 ≠ "0x0a" :=
  ⟨by decide, by decide, by decide⟩

/-- C2 (amended): in the WASM entry point each public signal of the
response is re-derived from the decoded Witness field elements via the
codec's encoding direction (canonical fixed-width little-endian bytes,
lowercase hex, `0x` prefix), so decoding each emitted signal returns the
corresponding witness element; the CLI binary instead returns the
caller's original witness strings (indices `1 ..= count`) verbatim. -/
theorem claim_c2_signal_rederivation (w : List Nat) (n : Nat)
    (hlen : n + 1 ≤ w.length) (hcanon : ∀ x ∈ w, x < fieldPrime) :
    wasmPublicSignals w n = some (((w.drop 1).take n).map fieldToHex) ∧
    (((w.drop 1).take n).map fieldToHex).map hex_to_field
      = ((w.drop 1).take n).map some ∧
    (∀ (ws : List String) (m : Nat), (cliSignalsAndWarning ws m).1 = (ws.drop 1).take m) := by
  refine ⟨?_, ?_, fun _ _ => rfl⟩
  · unfold wasmPublicSignals
    rw [if_pos hlen]
  · rw [List.map_map]
    apply List.map_congr_left
    intro x hx
    have hxw : x ∈ w := List.drop_subset 1 w (List.take_subset n _ hx)
    exact hex_to_field_fieldToHex x (hcanon x hxw)

/-- Witness for C2 (amended): witness `[1, 10, 20]` with count 2 — the
WASM response re-encodes 10 and 20, and both encodings decode back. -/
theorem claim_c2_witness :
    2 + 1 ≤ ([1, 10, 20] : List Nat).length ∧
    wasmPublicSignals [1, 10, 20] 2 = some [fieldToHex 10, fieldToHex 20] ∧
    [fieldToHex 10, fieldToHex 20].map hex_to_field = [some 10, some 20] :=
  ⟨by decide,
   (claim_c2_signal_rederivation [1, 10, 20] 2 (by decide) (by decide)).1,
   (claim_c2_signal_rederivation [1, 10, 20] 2 (by decide) (by decide)).2.1⟩

theorem range_filterMap_decls (w : List Nat) :
    ∀ np : Nat, np + 1 ≤ w.length →
    ((List.range np).filterMap fun i =>
      if h : i + 1 < w.length then some ((true : Bool), w[i + 1]) else none)
    = (((w.drop 1).take np).map fun v => ((true : Bool), v)) := by
  intro np
  induction np with
  | zero => intro h; simp
  | succ np ih =>
    intro h
    have hlt : np + 1 < w.length := by omega
    rw [List.range_succ, List.filterMap_append, ih (by omega)]
    have hfm : (List.filterMap (fun i =>
        if h : i + 1 < w.length then some ((true : Bool), w[i + 1]) else none) [np])
        = [(true, w[np + 1])] := by
      simp [List.filterMap_cons, hlt]
    have hdrop : (w.drop 1)[np]? = some w[np + 1] := by
      rw [List.getElem?_drop, show 1 + np = np + 1 from Nat.add_comm 1 np,
        List.getElem?_eq_getElem hlt]
    rw [hfm, List.take_succ, hdrop, List.map_append]
    rfl

/-- C8: the circuit adapter's `generate_constraints` declares, for every
witness index from 1 to `len(witness) - 1`, exactly one wire (a public
input variable for the first `circuitNumPublic` indices, a private
witness variable for the rest) carrying that index's value, in
increasing witness order, and never declares index 0 as a fresh wire:
the emitted declaration values are exactly `witness.drop 1` in order. -/
theorem claim_c8_circuit_wires (w : List Nat) :
    circuitDecls w
      = ((((w.drop 1).take (circuitNumPublic w)).map fun v => ((true : Bool), v))
        ++ (((w.drop 1).drop (circuitNumPublic w)).map fun v => ((false : Bool), v))) ∧
    (circuitDecls w).map Prod.snd = w.drop 1 := by
  have hsplit : circuitDecls w
      = ((((w.drop 1).take (circuitNumPublic w)).map fun v => ((true : Bool), v))
        ++ (((w.drop 1).drop (circuitNumPublic w)).map fun v => ((false : Bool), v))) := by
    by_cases hlen : 1 < w.length
    · have hq : w.length / 100 < w.length := Nat.div_lt_self (by omega) (by omega)
      have hnp : circuitNumPublic w + 1 ≤ w.length := by
        unfold circuitNumPublic
        rw [if_pos hlen]
        omega
      unfold circuitDecls
      rw [range_filterMap_decls w _ hnp]
      congr 1
      rw [List.drop_drop, Nat.add_comm 1 (circuitNumPublic w)]
    · have hnp : circuitNumPublic w = 0 := by
        unfold circuitNumPublic
        rw [if_neg hlen]
      unfold circuitDecls
      rw [hnp]
      simp
  refine ⟨hsplit, ?_⟩
  rw [hsplit, List.map_append, List.map_map, List.map_map]
  have h1 : (Prod.snd ∘ fun v : Nat => ((true : Bool), v)) = id := rfl
  have h2 : (Prod.snd ∘ fun v : Nat => ((false : Bool), v)) = id := rfl
  rw [h1, h2, List.map_id, List.map_id, List.take_append_drop]

end Groth16Proofs
